import Mathlib

/-!
Verification of the audio core of the underground_stories repository.

The development shallowly embeds the Python modules
  core/packages/core/audio/text_chunker.py
  core/packages/core/audio/audio_pipeline.py
  core/packages/core/audio/audio_concatenator.py
  core/packages/core/audio/providers/openai_tts.py
  core/packages/core/audio/providers/google_tts.py
into Lean.  Text is modelled as List Char (Python str indexing and len count
code points, as List Char does).  Python float arithmetic on durations and
costs is modelled as exact rational arithmetic.  Fixed regular expressions
from the source are hand-compiled into character-level scanners; each
scanner's doc comment names the regex it implements.
-/

namespace UStories

deriving instance DecidableEq for Except

/-- Whitespace test modelling Python's regex class \s and str.strip
(space, tab, newline, carriage return, form feed, vertical tab). -/
def isWs (c : Char) : Bool :=
  c = ' ' || c = '\t' || c = '\n' || c = '\r' || c = '\x0b' || c = '\x0c'

/-- Python str.strip(): drop leading and trailing whitespace. -/
def strip (l : List Char) : List Char :=
  ((l.dropWhile isWs).reverse.dropWhile isWs).reverse

namespace Chunker

/-- Rewriting of one maximal whitespace run under
re.sub(r'\n\s*\n\s*\n+', '\n\n', text) from
IntelligentTextChunker._normalize_text ("Max 2 line breaks").
A match can only start at the first newline of the run (earlier run
characters are not newlines, later newlines see a sub-run with no more
newlines), exists when the run holds at least three newlines, and the greedy
match extends through the last newline of the run; it is replaced by two
newlines, and the newline-free tail of the run admits no further match. -/
def flushRun (run : List Char) : List Char :=
  let a := run.takeWhile (· ≠ '\n')
  let b := run.drop a.length
  if 3 ≤ (b.filter (· = '\n')).length then
    a ++ '\n' :: '\n' :: (b.reverse.takeWhile (· ≠ '\n')).reverse
  else run

/-- Scanner for re.sub(r'\n\s*\n\s*\n+', '\n\n', text): accumulate each
maximal whitespace run and rewrite it with flushRun; characters outside
whitespace runs cannot take part in any match. -/
def sub1Go (acc : List Char) : List Char → List Char
  | [] => flushRun acc
  | c :: rest =>
    if isWs c then sub1Go (acc ++ [c]) rest
    else flushRun acc ++ c :: sub1Go [] rest

/-- First re.sub pass of _normalize_text. -/
def sub1 (l : List Char) : List Char := sub1Go [] l

/-- Scanner for re.sub(r' +', ' ', text) in _normalize_text: each maximal run
of spaces becomes a single space.  The flag records being inside a space run
whose single output space was already emitted. -/
def sub2Go : Bool → List Char → List Char
  | _, [] => []
  | true, c :: rest =>
    if c = ' ' then sub2Go true rest else c :: sub2Go false rest
  | false, c :: rest =>
    if c = ' ' then ' ' :: sub2Go true rest else c :: sub2Go false rest

/-- Second re.sub pass of _normalize_text. -/
def sub2 (l : List Char) : List Char := sub2Go false l

/-- ASCII range test for the regex class [A-Z]. -/
def isUpper (c : Char) : Bool := 'A' ≤ c && c ≤ 'Z'

/-- Sentence-end punctuation: the regex class [.!?]. -/
def isSentEnd (c : Char) : Bool := c = '.' || c = '!' || c = '?'

/-- Scanner for re.sub(r'([.!?])([A-Z])', r'\1 \2', text) in _normalize_text:
insert a space between sentence-ending punctuation and an immediately
following capital letter; scanning resumes after the consumed pair. -/
def sub4 : List Char → List Char
  | [] => []
  | [c] => [c]
  | c :: d :: rest =>
    if isSentEnd c && isUpper d then c :: ' ' :: d :: sub4 rest
    else c :: sub4 (d :: rest)

/-- Scanner for re.sub(r'—', ' — ', text) in _normalize_text: surround each
em-dash with spaces. -/
def sub5 (l : List Char) : List Char :=
  l.flatMap (fun c => if c = '—' then [' ', '—', ' '] else [c])

/-- Scanner for re.sub(r'  +', ' ', text) in _normalize_text: each maximal
run of two or more spaces becomes a single space; a lone space stays.  The
flag records being inside a collapsed run. -/
def sub6Go : Bool → List Char → List Char
  | _, [] => []
  | true, c :: rest =>
    if c = ' ' then sub6Go true rest else c :: sub6Go false rest
  | false, c :: rest =>
    if c = ' ' && rest.head? = some ' ' then ' ' :: sub6Go true rest
    else c :: sub6Go false rest

/-- Last re.sub pass of _normalize_text. -/
def sub6 (l : List Char) : List Char := sub6Go false l

/-- IntelligentTextChunker._normalize_text: the five re.sub passes and the
strip, applied in source order. -/
def normalize (text : List Char) : List Char :=
  sub6 (sub5 (sub4 (strip (sub2 (sub1 text)))))

/-- Word-count state machine: the flag records being inside a word. -/
def wordCountGo : Bool → List Char → Nat
  | _, [] => 0
  | inWord, c :: rest =>
    if isWs c then wordCountGo false rest
    else (if inWord then 0 else 1) + wordCountGo true rest

/-- Word count used by TextChunk.__post_init__: len(self.text.split()),
the number of maximal runs of non-whitespace characters. -/
def wordCount (l : List Char) : Nat := wordCountGo false l

/-- Generic scanner realizing re.finditer for the fixed break patterns of
text_chunker.py.  The argument m is a single-pattern matcher: given the
character preceding the current position (for lookbehind) and the rest of the
text, it returns the length a greedy match starting here would consume.  The
scanner records the end index of every match.  For each of the seven break
patterns, matches starting at distinct positions occupy disjoint spans, so
this per-position scan records exactly the finditer matches (runs of equal
ends collapse to the same last end). -/
def scanEnds (m : Option Char → List Char → Option Nat) :
    Option Char → List Char → Nat → List Nat
  | _, [], _ => []
  | prev, c :: rest, pos =>
    match m prev (c :: rest) with
    | some k => (pos + k) :: scanEnds m (some c) rest (pos + 1)
    | none => scanEnds m (some c) rest (pos + 1)

/-- Matcher for break pattern r'\n\n+' (paragraph breaks): two newlines, the
greedy plus consuming every consecutive newline. -/
def m1 (_ : Option Char) (l : List Char) : Option Nat :=
  if l.head? = some '\n' && (l.drop 1).head? = some '\n' then
    some (1 + ((l.drop 1).takeWhile (· = '\n')).length)
  else none

/-- Matcher for break pattern r'(?<=[.!?])\s*\n' (sentence plus line break):
after sentence punctuation, the greedy match runs through the last newline of
the maximal whitespace run. -/
def m2 (prev : Option Char) (l : List Char) : Option Nat :=
  match prev with
  | some p =>
    if isSentEnd p then
      let w := l.takeWhile isWs
      if w.contains '\n' then
        some (w.length - (w.reverse.takeWhile (· ≠ '\n')).length)
      else none
    else none
  | none => none

/-- Matcher for break pattern r'(?<=[.!?])\s+(?=[A-Z])' (sentence
boundaries): after sentence punctuation, a nonempty whitespace run whose
following character is a capital letter. -/
def m3 (prev : Option Char) (l : List Char) : Option Nat :=
  match prev with
  | some p =>
    if isSentEnd p then
      let w := l.takeWhile isWs
      if w.length = 0 then none
      else
        match (l.drop w.length).head? with
        | some u => if isUpper u then some w.length else none
        | none => none
    else none
  | none => none

/-- Literal alternatives of the lookahead in break pattern
r'(?<=,)\s+(?=And |But |However |Meanwhile |Then |Now |Still )'. -/
def transitionLookahead : List (List Char) :=
  ["And ", "But ", "However ", "Meanwhile ", "Then ", "Now ", "Still "].map String.toList

/-- Matcher for the comma-before-transition-word break pattern: after a
comma, a nonempty whitespace run followed by one of the literal words. -/
def m4 (prev : Option Char) (l : List Char) : Option Nat :=
  if prev = some ',' then
    let w := l.takeWhile isWs
    if w.length = 0 then none
    else if transitionLookahead.any (fun t => t.isPrefixOf (l.drop w.length)) then
      some w.length
    else none
  else none

/-- Matcher for the break patterns r'(?<=;)\s+', r'(?<=:)\s+' and
r'(?<=,)\s+': after the given character, a nonempty whitespace run. -/
def mAfter (ch : Char) (prev : Option Char) (l : List Char) : Option Nat :=
  if prev = some ch then
    let w := l.takeWhile isWs
    if w.length = 0 then none else some w.length
  else none

/-- The seven matchers, in the preference order of
IntelligentTextChunker.break_patterns. -/
def breakMatchers : List (Option Char → List Char → Option Nat) :=
  [m1, m2, m3, m4, mAfter ';', mAfter ':', mAfter ',']

/-- End index of the last finditer match of one pattern, or none. -/
def lastEnd (m : Option Char → List Char → Option Nat) (l : List Char) : Option Nat :=
  (scanEnds m none l 0).getLast?

/-- First some in a list of options. -/
def firstSome : List (Option Nat) → Option Nat
  | [] => none
  | some x :: _ => some x
  | none :: rest => firstSome rest

/-- IntelligentTextChunker._find_optimal_split: for each break pattern in
order, list its matches within text[:max_chars]; the first pattern with any
match yields the end of its last match.  none models the Python result -1. -/
def findOptimalSplit (maxChars : Nat) (text : List Char) : Option Nat :=
  firstSome (breakMatchers.map (fun m => lastEnd m (text.take maxChars)))

/-- The force-split back-off loop of _split_intelligently: starting from
split_point = max_chars, decrement while the character at split_point is not
in [' ', '\n', '\t'].  Python indexes remaining_text[split_point], always in
range there since max_chars < len(remaining_text); the out-of-range arm is
unreachable in every use below. -/
def forceLoop (text : List Char) : Nat → Nat
  | 0 => 0
  | sp + 1 =>
    match (text.drop (sp + 1)).head? with
    | some ch => if ch = ' ' || ch = '\n' || ch = '\t' then sp + 1 else forceLoop text sp
    | none => forceLoop text sp

/-- The force-split branch of _split_intelligently: back off to whitespace;
if the loop reached 0, split exactly at max_chars. -/
def forceSplit (maxChars : Nat) (text : List Char) : Nat :=
  let sp := forceLoop text maxChars
  if sp = 0 then maxChars else sp

/-- Loop body of IntelligentTextChunker._split_intelligently.  The fuel
argument bounds the number of iterations; every use passes the length of the
text, which suffices because for max_chars ≥ 1 each iteration strictly
shortens the remaining text (the split point is at least 1), exactly as the
Python while loop terminates only under max_chars ≥ 1.  The next_start
arithmetic max(split_point - overlap_chars, split_point) is copied as in the
source. -/
def splitGo (maxChars overlap : Nat) : Nat → List Char → List (List Char)
  | _, [] => []
  | 0, _ :: _ => []
  | fuel + 1, c :: cs =>
    if (c :: cs).length ≤ maxChars then [c :: cs]
    else
      let split_point :=
        match findOptimalSplit maxChars (c :: cs) with
        | some e => e
        | none => forceSplit maxChars (c :: cs)
      let chunk := strip ((c :: cs).take split_point)
      let next_start := max (split_point - overlap) split_point
      chunk :: splitGo maxChars overlap fuel (strip ((c :: cs).drop next_start))

/-- IntelligentTextChunker._split_intelligently. -/
def splitIntelligently (maxChars overlap : Nat) (text : List Char) : List (List Char) :=
  splitGo maxChars overlap text.length text

/-- Count of the non-overlapping matches of re.findall(r'"[^\x22]*"', text)
in _detect_chunk_type: quote characters pair up first-with-second,
third-with-fourth, and so on; each closed pair is one match.  The flag
records an open quote awaiting its closer. -/
def countQuotePairsGo : Bool → List Char → Nat
  | _, [] => 0
  | inQ, c :: rest =>
    if c = '"' then (if inQ then 1 else 0) + countQuotePairsGo (!inQ) rest
    else countQuotePairsGo inQ rest

/-- Dialogue-match count of _detect_chunk_type. -/
def countQuotePairs (l : List Char) : Nat := countQuotePairsGo false l

/-- Literal alternatives of re.search(r'(Meanwhile|Then|Now|Later|Suddenly)', text)
in _detect_chunk_type. -/
def transitionKeywords : List (List Char) :=
  ["Meanwhile", "Then", "Now", "Later", "Suddenly"].map String.toList

/-- Substring search: does any keyword occur in the text. -/
def containsAnyOf (keys : List (List Char)) (l : List Char) : Bool :=
  l.tails.any (fun t => keys.any (fun k => k.isPrefixOf t))

/-- IntelligentTextChunker._detect_chunk_type.  The Python comparison
dialogue_matches > total_sentences * 0.5 is exact as 2 * dialogue_matches >
total_sentences. -/
def detectChunkType (text : List Char) : String :=
  let dialogue_matches := countQuotePairs text
  let total_sentences := (text.filter isSentEnd).length
  if total_sentences < 2 * dialogue_matches then "dialogue"
  else if containsAnyOf transitionKeywords text then "transition"
  else "narrative"

/-- Dataclass TextChunk from text_chunker.py. estimated_duration_seconds is
a Python float, modelled as an exact rational. -/
structure TextChunk where
  text : List Char
  chunk_index : Nat
  total_chunks : Nat
  character_count : Nat
  estimated_duration_seconds : ℚ
  chunk_type : String
deriving DecidableEq

set_option linter.unusedVariables false in
/-- Construction of a TextChunk: the dataclass constructor immediately
followed by __post_init__, which overwrites estimated_duration_seconds with
(word_count / 150) * 60 regardless of the supplied argument. -/
def TextChunk.make (text : List Char) (chunk_index total_chunks character_count : Nat)
    (estimated_duration_seconds : ℚ) (chunk_type : String) : TextChunk :=
  { text := text
    chunk_index := chunk_index
    total_chunks := total_chunks
    character_count := character_count
    estimated_duration_seconds := ((wordCount text : ℚ) / 150) * 60
    chunk_type := chunk_type }

/-- Chunk-object construction loop of chunk_text: for i, chunk_text in
enumerate(chunks), building TextChunk(text=chunk_text.strip(), chunk_index=
i+1, total_chunks=total, character_count=len(chunk_text), 0,
chunk_type=_detect_chunk_type(chunk_text)). -/
def buildChunks (total_chunks : Nat) : Nat → List (List Char) → List TextChunk
  | _, [] => []
  | i, piece :: rest =>
    TextChunk.make (strip piece) (i + 1) total_chunks piece.length 0 (detectChunkType piece)
      :: buildChunks total_chunks (i + 1) rest

/-- IntelligentTextChunker.chunk_text: normalize, return a single chunk when
the normalized text fits max_chars, otherwise split intelligently and build
the chunk objects. -/
def chunk_text (maxChars overlap : Nat) (text : List Char) (content_type : String) :
    List TextChunk :=
  let t := normalize text
  if t.length ≤ maxChars then
    [TextChunk.make t 1 1 t.length 0 content_type]
  else
    let chunks := splitIntelligently maxChars overlap t
    buildChunks chunks.length 0 chunks

end Chunker

/-- Enum TTSProvider from types.py. -/
inductive TTSProvider where
  | google
  | openai
  | elevenlabs
deriving DecidableEq

/-- String value of a TTSProvider member (the enum is a str mixin, so
formatting a member in an f-string yields its value). -/
def TTSProvider.value : TTSProvider → String
  | .google => "google"
  | .openai => "openai"
  | .elevenlabs => "elevenlabs"

/-- Dataclass VoiceConfig from types.py.  Float parameters are modelled as
exact rationals; extra_params as an association list. -/
structure VoiceConfig where
  provider : TTSProvider
  voice_id : String
  language_code : String
  speed : ℚ := 1
  pitch : ℚ := 0
  volume_gain_db : ℚ := 0
  sample_rate_hertz : Nat := 24000
  audio_format : String := "mp3"
  extra_params : List (String × String) := []
deriving DecidableEq

/-- Dataclass AudioFile from types.py.  Paths are modelled as character
lists; generated_at is the ISO timestamp string. -/
structure AudioFile where
  file_id : String
  file_path : List Char
  duration_seconds : ℚ
  size_bytes : Nat
  format : String
  sample_rate : Nat
  bitrate : Nat
  voice_config : VoiceConfig
  generated_at : String
  text_input : List Char
deriving DecidableEq

/-- Dataclass TTSRequest from types.py. -/
structure TTSRequest where
  job_id : String
  text : List Char
  voice_config : VoiceConfig
  output_path : List Char
  max_retries : Nat := 3
  metadata : List (String × String) := []
deriving DecidableEq

/-- Dataclass TTSResult from types.py.  cost_cents is Optional[int]. -/
structure TTSResult where
  success : Bool
  audio_file : Option AudioFile := none
  error_message : Option String := none
  cost_cents : Option Int := none
  provider_response : List (String × String) := []
deriving DecidableEq

/-- Dataclass ProviderLimits from types.py. -/
structure ProviderLimits where
  max_characters : Nat
  max_requests_per_minute : Nat
  cost_per_million_characters : Nat
  supported_formats : List String
  supported_languages : List String
  max_speech_rate : ℚ
  min_speech_rate : ℚ
deriving DecidableEq

/-- A provider implementation as the pipeline consumes it (protocol
TTSProviderProtocol): a static limits declaration and a synthesize function.
Network effects inside synthesize are abstracted into the function: every
behaviour of a backend is one value of this type, and the claims quantify
over it. -/
structure ProviderImpl where
  get_limits : ProviderLimits
  synthesize : TTSRequest → TTSResult

/-- State of an AudioPipeline instance: the registered providers, the
fallback map, and the clock reading used for defaulted ids and timestamps
(models datetime.now().isoformat()). -/
structure AudioPipeline where
  providers : TTSProvider → Option ProviderImpl
  fallback_providers : TTSProvider → Option TTSProvider
  now : String

/-- The _fallback_providers dict installed by AudioPipeline.__init__. -/
def defaultFallbackProviders : TTSProvider → Option TTSProvider
  | .google => some .openai
  | .openai => some .google
  | .elevenlabs => none

namespace Pipeline

/-- Python str.split(sep) for a nonempty separator, on character lists.
The fuel argument is the input length; each step consumes at least one
character, so the fuel-exhausted arm is unreachable. -/
def splitOnGo (sep : List Char) : Nat → List Char → List Char → List (List Char)
  | _, acc, [] => [acc.reverse]
  | 0, acc, rest => [acc.reverse ++ rest]
  | fuel + 1, acc, c :: rest =>
    if sep.isPrefixOf (c :: rest) then
      acc.reverse :: splitOnGo sep fuel [] ((c :: rest).drop sep.length)
    else
      splitOnGo sep fuel (c :: acc) rest

/-- Python str.split(sep). -/
def splitOnList (sep : List Char) (l : List Char) : List (List Char) :=
  splitOnGo sep l.length [] l

/-- Inner sentence loop of AudioPipeline._split_text_for_provider: flush the
current chunk when the next sentence would overflow, then always append the
sentence plus ". ". -/
def sentenceStep (max_characters : Nat) (st : List (List Char) × List Char)
    (sentence : List Char) : List (List Char) × List Char :=
  let chunks := st.1
  let current := st.2
  let flushed :=
    if max_characters < current.length + sentence.length then
      (if current ≠ [] then chunks ++ [strip current] else chunks, ([] : List Char))
    else (chunks, current)
  (flushed.1, flushed.2 ++ sentence ++ (". ".toList))

/-- Outer paragraph loop of AudioPipeline._split_text_for_provider. -/
def paragraphStep (max_characters : Nat) (st : List (List Char) × List Char)
    (paragraph : List Char) : List (List Char) × List Char :=
  let chunks := st.1
  let current := st.2
  if max_characters < current.length + paragraph.length then
    let flushed := if current ≠ [] then chunks ++ [strip current] else chunks
    if max_characters < paragraph.length then
      (splitOnList (". ".toList) paragraph).foldl (sentenceStep max_characters) (flushed, [])
    else (flushed, paragraph)
  else
    (chunks, if current ≠ [] then current ++ ("\n\n".toList) ++ paragraph else paragraph)

/-- AudioPipeline._split_text_for_provider: paragraph-first splitting with a
sentence-level fallback for oversized paragraphs, and a final flush. -/
def splitTextForProvider (text : List Char) (max_characters : Nat) : List (List Char) :=
  if text.length ≤ max_characters then [text]
  else
    let folded := (splitOnList ("\n\n".toList) text).foldl (paragraphStep max_characters) ([], [])
    if folded.2 ≠ [] then folded.1 ++ [strip folded.2] else folded.1

/-- Zero-padded rendering of f-string {n:03d}. -/
def pad3 (n : Nat) : String :=
  let s := toString n
  if s.length < 3 then String.mk (List.replicate (3 - s.length) '0') ++ s else s

/-- Join path or name parts with a separator character. -/
def joinSep (sep : Char) : List (List Char) → List Char
  | [] => []
  | [p] => p
  | p :: ps => p ++ sep :: joinSep sep ps

/-- Per-chunk output path of _generate_chunked_audio:
output_path.parent / f"{output_path.stem}_chunk_{i+1:03d}.mp3", modelled for
ordinary slash-separated relative or absolute file paths (pathlib renders
Path(".") / name as just name, hence the no-slash arm). -/
def chunkPathName (output_path : List Char) (i : Nat) : List Char :=
  let parts := splitOnList ['/'] output_path
  let name := (parts.getLast?).getD []
  let fp := splitOnList ['.'] name
  let stem := if fp.length ≤ 1 then name else joinSep '.' fp.dropLast
  let newname := stem ++ ("_chunk_".toList) ++ (pad3 (i + 1)).toList ++ (".mp3".toList)
  if parts.length ≤ 1 then newname else joinSep '/' parts.dropLast ++ '/' :: newname

/-- The TTSRequest built for chunk i (0-based) in _generate_chunked_audio. -/
def chunkRequest (job_id : String) (vc : VoiceConfig) (output_path : List Char)
    (i : Nat) (chunk : List Char) : TTSRequest :=
  { job_id := job_id ++ "_chunk_" ++ toString (i + 1)
    text := chunk
    voice_config := vc
    output_path := chunkPathName output_path i }

/-- Python str(x) for an Optional[str] interpolated into an f-string. -/
def optStr : Option String → String
  | some s => s
  | none => "None"

/-- AudioPipeline._combine_audio_files.  Accessing a field of a None element
raises AttributeError; an empty list raises ValueError; both model the
uncaught Python exceptions as Except.error. -/
def combineAudioFiles (now : String) (audio_files : List (Option AudioFile))
    (output_path : List Char) : Except String AudioFile :=
  match audio_files with
  | [] => .error "ValueError: No audio files to combine"
  | _ :: _ =>
    if audio_files.all (·.isSome) then
      let files := audio_files.filterMap id
      match files with
      | first :: _ =>
        .ok { file_id := "combined_" ++ first.file_id
              file_path := output_path
              duration_seconds := (files.map (·.duration_seconds)).sum
              size_bytes := (files.map (·.size_bytes)).sum
              format := first.format
              sample_rate := first.sample_rate
              bitrate := first.bitrate
              voice_config := first.voice_config
              generated_at := now
              text_input := "combined_audio".toList }
      | [] => .error "unreachable: nonempty all-some list has a first element"
    else .error "AttributeError: NoneType object has no attribute duration_seconds"

/-- Per-chunk loop of AudioPipeline._generate_chunked_audio, also returning
the list of synthesize requests it issued, in order.  On the first failing
chunk it stops and reports that chunk's 1-based index; on full success it
combines the per-chunk audio files and sums their costs. -/
def chunkLoop (now : String) (provider : ProviderImpl) (vc : VoiceConfig)
    (output_path : List Char) (job_id : String) :
    Nat → List (List Char) → List (Option AudioFile) → Int →
    Except String TTSResult × List TTSRequest
  | _, [], audio_files, total_cost =>
    match combineAudioFiles now audio_files output_path with
    | .ok combined =>
      (.ok { success := true, audio_file := some combined, cost_cents := some total_cost }, [])
    | .error e => (.error e, [])
  | i, chunk :: rest, audio_files, total_cost =>
    let chunk_request := chunkRequest job_id vc output_path i chunk
    let result := provider.synthesize chunk_request
    if result.success = false then
      (.ok { success := false
             error_message := some ("Chunk " ++ toString (i + 1) ++ " generation failed: "
               ++ optStr result.error_message) },
       [chunk_request])
    else
      let next := chunkLoop now provider vc output_path job_id (i + 1) rest
        (audio_files ++ [result.audio_file]) (total_cost + result.cost_cents.getD 0)
      (next.1, chunk_request :: next.2)

/-- AudioPipeline._generate_chunked_audio. -/
def generateChunkedAudio (now : String) (provider : ProviderImpl) (text : List Char)
    (vc : VoiceConfig) (output_path : List Char) (job_id : String) :
    Except String TTSResult × List TTSRequest :=
  let chunks := splitTextForProvider text provider.get_limits.max_characters
  chunkLoop now provider vc output_path job_id 0 chunks [] 0

/-- AudioPipeline.generate_audio.  The first component is the returned
TTSResult, with Except.error modelling an uncaught Python exception (only
possible on the chunked path, which runs outside the try block).  The second
component is the ordered trace of provider.synthesize invocations.  The
third component is the state of the caller's voice_config object after the
call: the Python fallback branch binds fallback_config to the same object
(no copy) and assigns its provider field, so on that branch the caller's
object comes back mutated. -/
def generate_audio (p : AudioPipeline) (text : List Char) (voice_config : VoiceConfig)
    (output_path : List Char) (job_id : Option String) :
    Except String TTSResult × List (TTSProvider × TTSRequest) × VoiceConfig :=
  let jid := job_id.getD ("job_" ++ p.now)
  match p.providers voice_config.provider with
  | none =>
    (.ok { success := false
           error_message := some ("Provider " ++ voice_config.provider.value ++ " not available") },
     [], voice_config)
  | some provider =>
    if provider.get_limits.max_characters < text.length then
      let chunked := generateChunkedAudio p.now provider text voice_config output_path jid
      (chunked.1, chunked.2.map (fun r => (voice_config.provider, r)), voice_config)
    else
      let request : TTSRequest :=
        { job_id := jid, text := text, voice_config := voice_config, output_path := output_path }
      let result := provider.synthesize request
      if result.success = false then
        match p.fallback_providers voice_config.provider with
        | some fallback_provider_type =>
          match p.providers fallback_provider_type with
          | some fallback_provider =>
            let fallback_config := { voice_config with provider := fallback_provider_type }
            let fallback_request : TTSRequest :=
              { job_id := jid, text := text, voice_config := fallback_config
                output_path := output_path }
            (.ok (fallback_provider.synthesize fallback_request),
             [(voice_config.provider, request), (fallback_provider_type, fallback_request)],
             fallback_config)
          | none => (.ok result, [(voice_config.provider, request)], voice_config)
        | none => (.ok result, [(voice_config.provider, request)], voice_config)
      else (.ok result, [(voice_config.provider, request)], voice_config)

end Pipeline

namespace Concat

/-- File-system state: each path (a character list) maps to the size in
bytes of the file there, or none when absent.  This is the part of the disk
the concatenator observes (Path.exists and stat().st_size). -/
def FS : Type := List Char → Option Nat

/-- Writing a file sets its size. -/
def FS.write (fs : FS) (p : List Char) (n : Nat) : FS :=
  fun q => if q = p then some n else fs q

/-- Path.unlink (guarded by an exists check in the source, so removing an
absent file is the same no-op). -/
def FS.remove (fs : FS) (p : List Char) : FS :=
  fun q => if q = p then none else fs q

/-- shutil.copy2: raises FileNotFoundError when the source is absent,
otherwise the destination gets the source's size. -/
def FS.copy2 (fs : FS) (src dst : List Char) : Except String FS :=
  match fs src with
  | none => .error "FileNotFoundError: shutil.copy2 source missing"
  | some n => .ok (fs.write dst n)

/-- External-process environment of the concatenator: the result of the
ffmpeg version probe, and the effects of the two ffmpeg invocations (the
concat run and the silence-clip run).  Each invocation returns an error
message when the Python code would raise (nonzero exit or timeout) together
with the file system it leaves behind. -/
structure ConcatEnv where
  ffmpeg_available : Bool
  run_ffmpeg_concat : List Char → List Char → FS → Option String × FS
  run_ffmpeg_silence : List Char → FS → Option String × FS
  now_stamp : String

/-- Instance state of AudioConcatenator (its __init__ attributes). -/
structure AudioConcatenator where
  temp_dir : List Char := "temp/audio_processing".toList
  crossfade_duration : ℚ := 1 / 10
  silence_duration : ℚ := 1 / 5
  target_bitrate : String := "128k"
  target_sample_rate : Nat := 24000

/-- Method tag and bookkeeping keys of the dict a concatenation method
returns before concatenate_chunks adds the success keys. -/
structure MethodInfo where
  method : String
  chunks_processed : Nat
  warning : Option String := none
  added_pauses : Option Bool := none
  processing_time : Option String := none
deriving DecidableEq

/-- The dict concatenate_chunks returns, with optional fields for keys that
are present only on some paths. -/
structure ConcatResult where
  success : Bool
  info : Option MethodInfo := none
  output_path : Option (List Char) := none
  file_size : Option Nat := none
  error : Option String := none
deriving DecidableEq

/-- AudioConcatenator._concatenate_with_ffmpeg.  The manifest file is
written (its byte size is tracked as 1: nothing ever reads it back), the
silence clip is created when add_pauses is set (a failure there raises past
the try/finally, leaving the manifest behind), ffmpeg runs once, and the
finally block removes the manifest and silence files on both exits. -/
def concatenateWithFfmpeg (env : ConcatEnv) (conc : AudioConcatenator) (fs : FS)
    (audio_files : List (List Char)) (output_path : List Char) (add_pauses : Bool) :
    Except String MethodInfo × FS :=
  let input_list_path :=
    conc.temp_dir ++ '/' :: ("concat_list_".toList) ++ env.now_stamp.toList ++ (".txt".toList)
  let silence_path := conc.temp_dir ++ '/' :: ("silence.mp3".toList)
  let fs1 := fs.write input_list_path 1
  let info : MethodInfo :=
    { method := "ffmpeg", chunks_processed := audio_files.length
      added_pauses := some add_pauses, processing_time := some "calculated_later" }
  if add_pauses then
    match env.run_ffmpeg_silence silence_path fs1 with
    | (some e, fs2) => (.error ("Exception: Failed to create silence file: " ++ e), fs2)
    | (none, fs2) =>
      let fs2b := fs2.write input_list_path 1
      match env.run_ffmpeg_concat input_list_path output_path fs2b with
      | (some e, fs3) =>
        (.error ("Exception: ffmpeg failed: " ++ e), (fs3.remove input_list_path).remove silence_path)
      | (none, fs3) =>
        (.ok info, (fs3.remove input_list_path).remove silence_path)
  else
    match env.run_ffmpeg_concat input_list_path output_path fs1 with
    | (some e, fs3) => (.error ("Exception: ffmpeg failed: " ++ e), fs3.remove input_list_path)
    | (none, fs3) => (.ok info, fs3.remove input_list_path)

/-- AudioConcatenator._concatenate_simple: the degraded path copies only the
first segment to the destination. -/
def concatenateSimple (fs : FS) (audio_files : List (List Char)) (output_path : List Char) :
    Except String MethodInfo × FS :=
  match audio_files with
  | [] => (.error "Exception: No audio files to concatenate", fs)
  | first :: _ =>
    match fs.copy2 first output_path with
    | .error e => (.error e, fs)
    | .ok fs1 =>
      (.ok { method := "simple_copy"
             warning := some "Only first chunk copied - install ffmpeg for full concatenation"
             chunks_processed := 1 }, fs1)

/-- AudioConcatenator._copy_single_file: copy and report success with the
copied size; no emptiness check.  A missing source raises outside any
handler. -/
def copySingleFile (fs : FS) (source destination : List Char) :
    Except String ConcatResult × FS :=
  match fs source with
  | none => (.error "FileNotFoundError: shutil.copy2 source missing", fs)
  | some n =>
    let fs1 := fs.write destination n
    (.ok { success := true
           info := some { method := "single_file_copy", chunks_processed := 1 }
           output_path := some destination
           file_size := some n }, fs1)

set_option linter.unusedVariables false in
/-- AudioConcatenator.concatenate_chunks.  An Except.error first component
models an exception escaping the method (the empty-input ValueError raised
before the try block, or a copy failure on the single-file path, both of
which run outside the handler).  Inside the try block, the chosen method
runs, then the result is validated: success only when the output path exists
with nonzero size, any exception becoming a returned failure dict.  The
crossfade flag is accepted and never read, as in the source. -/
def concatenate_chunks (env : ConcatEnv) (conc : AudioConcatenator) (fs : FS)
    (audio_files : List (List Char)) (output_path : List Char)
    (add_pauses crossfade : Bool) : Except String ConcatResult × FS :=
  match audio_files with
  | [] => (.error "ValueError: No audio files provided for concatenation", fs)
  | [single] => copySingleFile fs single output_path
  | _ :: _ :: _ =>
    let run :=
      if env.ffmpeg_available then
        concatenateWithFfmpeg env conc fs audio_files output_path add_pauses
      else
        concatenateSimple fs audio_files output_path
    match run with
    | (.error e, fs1) =>
      (.ok { success := false, error := some e, output_path := some output_path }, fs1)
    | (.ok info, fs1) =>
      match fs1 output_path with
      | some n =>
        if 0 < n then
          (.ok { success := true, info := some info
                 output_path := some output_path, file_size := some n }, fs1)
        else
          (.ok { success := false
                 error := some "Concatenation failed - output file is empty or missing"
                 output_path := some output_path }, fs1)
      | none =>
        (.ok { success := false
               error := some "Concatenation failed - output file is empty or missing"
               output_path := some output_path }, fs1)

end Concat

namespace Providers

/-- Substring test realizing the Python operator needle in haystack. -/
def containsSub (needle hay : List Char) : Bool :=
  hay.tails.any (fun t => needle.isPrefixOf t)

/-- OpenAITTSProvider.estimate_cost: $15 per million characters in cents,
floored to an int (Python int() truncates toward zero and the value is
nonnegative), with a minimum charge of 1 cent. -/
def openai_estimate_cost (text : List Char) : ℤ :=
  let character_count : ℤ := text.length
  let cost_cents : ℚ := (character_count : ℚ) / 1000000 * 1500
  max 1 ⌊cost_cents⌋

/-- Pricing tier selected by GoogleTTSProvider.estimate_cost: Journey and
Studio voices cost 16000 cents per million characters, Wavenet 1600,
anything else (including a falsy voice_id) 400. -/
def google_tier (voice_id : Option String) : Nat :=
  match voice_id with
  | some v =>
    if v ≠ "" && (containsSub "Journey".toList v.toList || containsSub "Studio".toList v.toList)
    then 16000
    else if v ≠ "" && containsSub "Wavenet".toList v.toList then 1600
    else 400
  | none => 400

/-- GoogleTTSProvider.estimate_cost. -/
def google_estimate_cost (voice_id : Option String) (text : List Char) : ℤ :=
  let character_count : ℤ := text.length
  let cost_cents : ℚ := (character_count : ℚ) / 1000000 * (google_tier voice_id : ℚ)
  max 1 ⌊cost_cents⌋

end Providers

namespace Spec

/-- Interleaving of separator runs around chunk texts: with one more
separator than chunks, interleaveSep [w0, w1, ..., wn] [c1, ..., cn]
is w0 ++ c1 ++ w1 ++ c2 ++ ... ++ cn ++ wn.  Used to state that the chunk
texts reproduce the normalized input modulo whitespace trimmed at chunk
boundaries. -/
def interleaveSep : List (List Char) → List (List Char) → List Char
  | w :: ws, c :: cs => w ++ c ++ interleaveSep ws cs
  | w :: _, [] => w
  | [], _ => []

/-- Append extra characters to the last element of a list of runs. -/
def appLast (t : List Char) : List (List Char) → List (List Char)
  | [] => [t]
  | [w] => [w ++ t]
  | w :: w2 :: ws => w :: appLast t (w2 :: ws)

/-- The synthesize requests _generate_chunked_audio builds for consecutive
chunks starting at 0-based index i: used to state which requests a partial
run issued. -/
def chunkRequests (jid : String) (vc : VoiceConfig) (out : List Char) :
    Nat → List (List Char) → List TTSRequest
  | _, [] => []
  | i, c :: rest =>
    Pipeline.chunkRequest jid vc out i c :: chunkRequests jid vc out (i + 1) rest

end Spec

namespace Fixtures

open Pipeline Concat

/-- Small provider limits declaration used by concrete scenarios. -/
def limits5 : ProviderLimits :=
  { max_characters := 5, max_requests_per_minute := 10
    cost_per_million_characters := 1500, supported_formats := ["mp3"]
    supported_languages := ["en"], max_speech_rate := 4, min_speech_rate := 1 / 4 }

/-- Roomy provider limits declaration used by concrete scenarios. -/
def limits100 : ProviderLimits :=
  { max_characters := 100, max_requests_per_minute := 10
    cost_per_million_characters := 1500, supported_formats := ["mp3"]
    supported_languages := ["en"], max_speech_rate := 4, min_speech_rate := 1 / 4 }

/-- A Google voice configuration as in the repository's tests. -/
def vcG : VoiceConfig :=
  { provider := .google, voice_id := "en-US-Neural2-J", language_code := "en-US" }

/-- A provider whose synthesize always fails (a stubbed rate-limit error). -/
def primFail : ProviderImpl :=
  { get_limits := limits100
    synthesize := fun _ => { success := false, error_message := some "API rate limit exceeded" } }

/-- A provider whose synthesize always succeeds. -/
def fbOk : ProviderImpl :=
  { get_limits := limits100, synthesize := fun _ => { success := true } }

/-- Pipeline with a failing Google primary and a succeeding OpenAI fallback,
matching the repository's fallback test setup. -/
def pipeFB : AudioPipeline :=
  { providers := fun t =>
      match t with
      | .google => some primFail
      | .openai => some fbOk
      | .elevenlabs => none
    fallback_providers := defaultFallbackProviders
    now := "2025-01-01T00:00:00" }

/-- A provider that fails exactly on the first chunk text of textChunked. -/
def chunkFailProv : ProviderImpl :=
  { get_limits := limits5
    synthesize := fun r =>
      if r.text = ("ab\n\ncd".toList) then { success := false, error_message := some "boom" }
      else { success := true, cost_cents := some 1 } }

/-- Pipeline registering only chunkFailProv under google. -/
def pipeChunk : AudioPipeline :=
  { providers := fun t =>
      match t with
      | .google => some chunkFailProv
      | _ => none
    fallback_providers := defaultFallbackProviders
    now := "T0" }

/-- A ten-character text splitting into two chunks under limits5. -/
def textChunked : List Char := "ab\n\ncd\n\nef".toList

/-- Concatenation environment without ffmpeg and with inert process runs. -/
def env0 : ConcatEnv :=
  { ffmpeg_available := false
    run_ffmpeg_concat := fun _ _ fs => (none, fs)
    run_ffmpeg_silence := fun _ fs => (none, fs)
    now_stamp := "S" }

/-- Default-constructed concatenator instance. -/
def conc0 : AudioConcatenator := {}

/-- Empty file system. -/
def fs0 : FS := fun _ => none

/-- Path of a zero-byte source file. -/
def srcEmpty : List Char := "a.mp3".toList

/-- File system holding a single zero-byte file. -/
def fsEmptySrc : FS := fun p => if p = srcEmpty then some 0 else none

/-- Output destination path. -/
def outP : List Char := "out/ep.mp3".toList

/-- File system holding two nonempty segment files. -/
def fsTwo : FS :=
  fun p =>
    if p = ("x1.mp3".toList) then some 7
    else if p = ("x2.mp3".toList) then some 9
    else none

/-- The two segment paths present in fsTwo. -/
def files2 : List (List Char) := ["x1.mp3".toList, "x2.mp3".toList]

/-- Expected result of degraded concatenation of files2 to outP. -/
def r8 : ConcatResult :=
  { success := true
    info := some { method := "simple_copy"
                   warning := some "Only first chunk copied - install ffmpeg for full concatenation"
                   chunks_processed := 1 }
    output_path := some outP
    file_size := some 7 }

/-- Inert default chunk used only as a getD fallback in witnesses. -/
def dfltChunk : Chunker.TextChunk := Chunker.TextChunk.make [] 0 0 0 0 "narrative"

end Fixtures

/-! Theorems.  Shared helper lemmas come first, then one theorem per claim
(with its witness or counterexample where required). -/

open Chunker Pipeline Concat Providers Spec Fixtures

/-- dropWhile never lengthens a list. -/
theorem dropWhile_len_le (p : Char → Bool) (l : List Char) :
    (l.dropWhile p).length ≤ l.length :=
  (List.dropWhile_sublist p).length_le

/-- takeWhile never lengthens a list. -/
theorem takeWhile_len_le (p : Char → Bool) (l : List Char) :
    (l.takeWhile p).length ≤ l.length :=
  (List.takeWhile_sublist p).length_le

/-- strip never lengthens a list. -/
theorem strip_len_le (l : List Char) : (strip l).length ≤ l.length := by
  unfold strip
  calc ((l.dropWhile isWs).reverse.dropWhile isWs).reverse.length
      = ((l.dropWhile isWs).reverse.dropWhile isWs).length := List.length_reverse _
    _ ≤ (l.dropWhile isWs).reverse.length := dropWhile_len_le _ _
    _ = (l.dropWhile isWs).length := List.length_reverse _
    _ ≤ l.length := dropWhile_len_le _ _

/-- C10: immediately after construction, a TextChunk's
estimated_duration_seconds equals (word count / 150) * 60, whatever duration
value the caller supplied: __post_init__ always overwrites it. -/
theorem C10_post_init_overwrites_duration (text : List Char)
    (chunk_index total_chunks character_count : Nat) (supplied : ℚ) (chunk_type : String) :
    (TextChunk.make text chunk_index total_chunks character_count supplied chunk_type).estimated_duration_seconds
      = ((wordCount text : ℚ) / 150) * 60 := rfl

/-- Claim C10 has a universally quantified non-propositional statement; this
closed instance exercises it at a concrete chunk whose supplied duration 999
is discarded in favour of the 4-word formula. -/
theorem C10_post_init_overwrites_duration_witness :
    (TextChunk.make ("one two  three four".toList) 1 1 19 999 "story").estimated_duration_seconds
      = ((4 : ℚ) / 150) * 60 := by
  have h := C10_post_init_overwrites_duration ("one two  three four".toList) 1 1 19 999 "story"
  rw [h, show wordCount ("one two  three four".toList) = 4 from by decide]
  norm_num

/-- C2: when the normalized text fits within max_chars, chunk_text returns
exactly the one chunk holding the normalized text, with chunk_index 1,
total_chunks 1 and character_count equal to the normalized length. -/
theorem C2_single_chunk (maxChars overlap : Nat) (content_type : String) (T : List Char)
    (h : (normalize T).length ≤ maxChars) :
    chunk_text maxChars overlap T content_type
      = [TextChunk.make (normalize T) 1 1 (normalize T).length 0 content_type] := by
  unfold chunk_text
  simp [h]

/-- Witness for C2 at a concrete short text. -/
theorem C2_single_chunk_witness :
    (normalize ("Hi there.All good  — yes".toList)).length ≤ 50 ∧
    chunk_text 50 100 ("Hi there.All good  — yes".toList) "story"
      = [TextChunk.make (normalize ("Hi there.All good  — yes".toList)) 1 1
          (normalize ("Hi there.All good  — yes".toList)).length 0 "story"] :=
  ⟨by decide, C2_single_chunk 50 100 "story" _ (by decide)⟩

/-- C9 (part of the shared helper chain): floors of scaled lengths are
monotone in the length. -/
theorem cost_floor_mono (a b : ℤ) (r : ℚ) (hr : 0 ≤ r) (h : a ≤ b) :
    (⌊(a : ℚ) / 1000000 * r⌋ : ℤ) ≤ ⌊(b : ℚ) / 1000000 * r⌋ := by
  apply Int.floor_le_floor
  have hab : (a : ℚ) ≤ (b : ℚ) := by exact_mod_cast h
  have : (a : ℚ) / 1000000 ≤ (b : ℚ) / 1000000 := by
    apply div_le_div_of_nonneg_right hab
    norm_num
  exact mul_le_mul_of_nonneg_right this hr

/-- C9: for both concrete providers and any fixed voice, estimate_cost is
monotonically non-decreasing in text length and always at least 1 cent. -/
theorem C9_estimate_cost_monotone_min (s t : List Char) (voice_id : Option String)
    (h : s.length ≤ t.length) :
    (openai_estimate_cost s ≤ openai_estimate_cost t ∧ 1 ≤ openai_estimate_cost s) ∧
    (google_estimate_cost voice_id s ≤ google_estimate_cost voice_id t ∧
      1 ≤ google_estimate_cost voice_id s) := by
  have hz : (s.length : ℤ) ≤ (t.length : ℤ) := by exact_mod_cast h
  refine ⟨⟨?_, ?_⟩, ⟨?_, ?_⟩⟩
  · exact max_le_max (le_refl 1) (cost_floor_mono _ _ 1500 (by norm_num) hz)
  · exact le_max_left 1 _
  · exact max_le_max (le_refl 1) (cost_floor_mono _ _ _ (by positivity) hz)
  · exact le_max_left 1 _

/-- Witness for C9 at concrete texts and the default voice. -/
theorem C9_estimate_cost_monotone_min_witness :
    ("ab".toList.length ≤ "abcd".toList.length) ∧
    ((openai_estimate_cost ("ab".toList) ≤ openai_estimate_cost ("abcd".toList) ∧
        1 ≤ openai_estimate_cost ("ab".toList)) ∧
      (google_estimate_cost none ("ab".toList) ≤ google_estimate_cost none ("abcd".toList) ∧
        1 ≤ google_estimate_cost none ("ab".toList))) :=
  ⟨by decide, C9_estimate_cost_monotone_min ("ab".toList) ("abcd".toList) none (by decide)⟩

/-- C5: on the single-request path, when the primary synthesize fails and a
fallback is configured and registered, the primary and the fallback are each
invoked exactly once, in that order (the trace), and the fallback's result —
success or failure — is returned unchanged with no further attempts. -/
theorem C5_single_fallback_retry (p : AudioPipeline) (text : List Char) (vc : VoiceConfig)
    (out : List Char) (jid : String) (prim fb : ProviderImpl) (fbT : TTSProvider)
    (hreg : p.providers vc.provider = some prim)
    (hlen : text.length ≤ prim.get_limits.max_characters)
    (hfail : (prim.synthesize
      { job_id := jid, text := text, voice_config := vc, output_path := out }).success = false)
    (hfb : p.fallback_providers vc.provider = some fbT)
    (hfbreg : p.providers fbT = some fb) :
    generate_audio p text vc out (some jid) =
      (.ok (fb.synthesize
          { job_id := jid, text := text,
            voice_config := { vc with provider := fbT }, output_path := out }),
       [(vc.provider, { job_id := jid, text := text, voice_config := vc, output_path := out }),
        (fbT, { job_id := jid, text := text, voice_config := { vc with provider := fbT },
                output_path := out })],
       { vc with provider := fbT }) := by
  unfold generate_audio
  rw [hreg]
  simp only [Option.getD_some]
  rw [if_neg (Nat.not_lt.mpr hlen)]
  simp only [hfail, if_pos, hfb, hfbreg]

/-- Witness for C5: the repository's own fallback test scenario (failing
Google primary, succeeding OpenAI fallback). -/
theorem C5_single_fallback_retry_witness :
    (("test".toList).length ≤ primFail.get_limits.max_characters) ∧
    ((primFail.synthesize
        { job_id := "j", text := "test".toList, voice_config := vcG,
          output_path := "o.mp3".toList }).success = false) ∧
    generate_audio pipeFB ("test".toList) vcG ("o.mp3".toList) (some "j") =
      (.ok (fbOk.synthesize
          { job_id := "j", text := "test".toList,
            voice_config := { vcG with provider := .openai }, output_path := "o.mp3".toList }),
       [(TTSProvider.google,
         { job_id := "j", text := "test".toList, voice_config := vcG,
           output_path := "o.mp3".toList }),
        (TTSProvider.openai,
         { job_id := "j", text := "test".toList,
           voice_config := { vcG with provider := .openai }, output_path := "o.mp3".toList })],
       { vcG with provider := .openai }) :=
  ⟨by decide, rfl,
    C5_single_fallback_retry pipeFB ("test".toList) vcG ("o.mp3".toList) "j"
      primFail fbOk .openai rfl (by decide) rfl rfl rfl⟩

/-- C1 (code bug): evaluating generate_audio at a fallback scenario shows
the caller's VoiceConfig object mutated in place.  The caller passed a
configuration naming google; Python's fallback branch aliases it
(fallback_config = voice_config) before assigning the provider field, so
after the call the caller's object names openai, contradicting the spec's
mutation discipline. -/
theorem C1_caller_config_mutated :
    vcG.provider = TTSProvider.google ∧
    (generate_audio pipeFB ("test".toList) vcG ("o.mp3".toList) (some "j")).2.2.provider
      = TTSProvider.openai :=
  ⟨rfl, rfl⟩

/-- C7 counterexample: with zero input segments, concatenate_chunks raises
ValueError (the first component is an escaped exception, not a returned
result dict), so it does not return a failure result. -/
theorem C7_counterexample_raises :
    (concatenate_chunks env0 conc0 fs0 [] outP true true).1
      = Except.error "ValueError: No audio files provided for concatenation" ∧
    ((concatenate_chunks env0 conc0 fs0 [] outP true true).1).toOption = none :=
  ⟨rfl, rfl⟩

/-- C7 amended: for the empty list of input segments, concatenate_chunks
raises ValueError("No audio files provided for concatenation") — before the
try block, so nothing is returned — and leaves the file system untouched. -/
theorem C7_amended_empty_input_raises (env : ConcatEnv) (conc : AudioConcatenator) (fs : FS)
    (out : List Char) (ap cf : Bool) :
    concatenate_chunks env conc fs [] out ap cf
      = (Except.error "ValueError: No audio files provided for concatenation", fs) := rfl

/-- C8 counterexample: on the single-segment copy path the result reports
success without the non-empty check — copying a zero-byte source yields
success = true with file_size 0 while the output file is empty. -/
theorem C8_counterexample_single_empty_success :
    (concatenate_chunks env0 conc0 fsEmptySrc [srcEmpty] outP true true).1
      = Except.ok { success := true
                    info := some { method := "single_file_copy", chunks_processed := 1 }
                    output_path := some outP, file_size := some 0 } ∧
    (concatenate_chunks env0 conc0 fsEmptySrc [srcEmpty] outP true true).2 outP = some 0 :=
  ⟨by decide, by decide⟩

/-- C8 amended: on the multi-segment paths (external-tool concatenation and
the degraded fallback) a returned result reports success only if the output
path exists with nonzero size after the call; the single-segment copy path
returns success without that check. -/
theorem C8_amended_multi_success_nonempty (env : ConcatEnv) (conc : AudioConcatenator)
    (fs : FS) (audio_files : List (List Char)) (out : List Char) (ap cf : Bool)
    (r : ConcatResult)
    (h2 : 2 ≤ audio_files.length)
    (hok : (concatenate_chunks env conc fs audio_files out ap cf).1 = Except.ok r)
    (hs : r.success = true) :
    ∃ n, (concatenate_chunks env conc fs audio_files out ap cf).2 out = some n ∧ 0 < n := by
  match audio_files, h2 with
  | a :: b :: rest, _ =>
    simp only [concatenate_chunks] at hok ⊢
    rcases hr : (if env.ffmpeg_available then
        concatenateWithFfmpeg env conc fs (a :: b :: rest) out ap
      else concatenateSimple fs (a :: b :: rest) out) with ⟨er, fs1⟩
    rw [hr] at hok
    cases er with
    | error e =>
      dsimp only at hok
      injection hok with h
      subst h
      simp at hs
    | ok info =>
      dsimp only at hok ⊢
      rcases hfs : fs1 out with _ | n
      · rw [hfs] at hok
        dsimp only at hok
        injection hok with h
        subst h
        simp at hs
      · rw [hfs] at hok
        dsimp only at hok
        by_cases hn : 0 < n
        · dsimp only
          rw [if_pos hn]
          exact ⟨n, hfs, hn⟩
        · rw [if_neg hn] at hok
          injection hok with h
          subst h
          simp at hs

/-- Witness for C8 amended: degraded two-segment concatenation with a
7-byte first segment succeeds and the output is 7 bytes. -/
theorem C8_amended_multi_success_nonempty_witness :
    2 ≤ files2.length ∧
    (concatenate_chunks env0 conc0 fsTwo files2 outP true true).1 = Except.ok r8 ∧
    r8.success = true ∧
    ∃ n, (concatenate_chunks env0 conc0 fsTwo files2 outP true true).2 outP = some n ∧ 0 < n :=
  ⟨by decide, by decide, rfl,
    C8_amended_multi_success_nonempty env0 conc0 fsTwo files2 outP true true r8
      (by decide) (by decide) rfl⟩

/-- An element of a list that contains a is reached by takeWhile of its
negation strictly before the end. -/
theorem takeWhile_ne_lt_of_mem (a : Char) :
    ∀ (w : List Char), a ∈ w → (w.takeWhile (· ≠ a)).length < w.length := by
  intro w
  induction w with
  | nil => intro h; simp at h
  | cons c rest ih =>
    intro h
    by_cases hc : c = a
    · subst hc
      simp [List.takeWhile_cons]
    · have ha : a ∈ rest := by
        rcases List.mem_cons.mp h with h1 | h1
        · exact absurd h1.symm hc
        · exact h1
      have h2 := ih ha
      simp only [List.takeWhile_cons]
      rw [if_pos (by simp [hc])]
      simp only [List.length_cons]
      omega

/-- Bound for matcher m1: a paragraph-break match consumes between 1
character and the whole text. -/
theorem m1_bound (prev : Option Char) (l : List Char) (k : Nat)
    (h : m1 prev l = some k) : 1 ≤ k ∧ k ≤ l.length := by
  unfold m1 at h
  split at h
  · cases h
    cases l with
    | nil => simp_all
    | cons c rest =>
      have ht := takeWhile_len_le (fun x => decide (x = '\n')) rest
      have hd : List.drop 1 (c :: rest) = rest := rfl
      rw [hd]
      refine ⟨by omega, ?_⟩
      simp only [List.length_cons]
      omega
  · exact Option.noConfusion h

/-- Bound for matcher m2. -/
theorem m2_bound (prev : Option Char) (l : List Char) (k : Nat)
    (h : m2 prev l = some k) : 1 ≤ k ∧ k ≤ l.length := by
  cases prev with
  | none => exact Option.noConfusion h
  | some p =>
    unfold m2 at h
    dsimp only at h
    by_cases hp : isSentEnd p = true
    · rw [if_pos hp] at h
      by_cases hw : (l.takeWhile isWs).contains '\n' = true
      · rw [if_pos hw] at h
        cases h
        have hmem : '\n' ∈ (l.takeWhile isWs).reverse :=
          List.mem_reverse.mpr (List.mem_of_elem_eq_true hw)
        have hlt := takeWhile_ne_lt_of_mem '\n' (l.takeWhile isWs).reverse hmem
        have hle := takeWhile_len_le isWs l
        rw [List.length_reverse] at hlt
        exact ⟨by omega, by omega⟩
      · rw [if_neg hw] at h
        exact Option.noConfusion h
    · rw [if_neg hp] at h
      exact Option.noConfusion h

/-- Bound for matcher m3. -/
theorem m3_bound (prev : Option Char) (l : List Char) (k : Nat)
    (h : m3 prev l = some k) : 1 ≤ k ∧ k ≤ l.length := by
  cases prev with
  | none => exact Option.noConfusion h
  | some p =>
    unfold m3 at h
    dsimp only at h
    by_cases hp : isSentEnd p = true
    · rw [if_pos hp] at h
      by_cases hw : (l.takeWhile isWs).length = 0
      · rw [if_pos hw] at h
        exact Option.noConfusion h
      · rw [if_neg hw] at h
        cases hu : (l.drop (l.takeWhile isWs).length).head? with
        | none =>
          rw [hu] at h
          exact Option.noConfusion h
        | some u =>
          rw [hu] at h
          dsimp only at h
          by_cases hup : isUpper u = true
          · rw [if_pos hup] at h
            cases h
            exact ⟨by omega, takeWhile_len_le isWs l⟩
          · rw [if_neg hup] at h
            exact Option.noConfusion h
    · rw [if_neg hp] at h
      exact Option.noConfusion h

/-- Bound for matcher m4. -/
theorem m4_bound (prev : Option Char) (l : List Char) (k : Nat)
    (h : m4 prev l = some k) : 1 ≤ k ∧ k ≤ l.length := by
  unfold m4 at h
  by_cases hp : prev = some ','
  · rw [if_pos hp] at h
    dsimp only at h
    by_cases hw : (l.takeWhile isWs).length = 0
    · rw [if_pos hw] at h
      exact Option.noConfusion h
    · rw [if_neg hw] at h
      by_cases ht : (transitionLookahead.any
          (fun t => t.isPrefixOf (l.drop (l.takeWhile isWs).length))) = true
      · rw [if_pos ht] at h
        cases h
        exact ⟨by omega, takeWhile_len_le isWs l⟩
      · rw [if_neg ht] at h
        exact Option.noConfusion h
  · rw [if_neg hp] at h
    exact Option.noConfusion h

/-- Bound for the semicolon, colon and comma matchers. -/
theorem mAfter_bound (ch : Char) (prev : Option Char) (l : List Char) (k : Nat)
    (h : mAfter ch prev l = some k) : 1 ≤ k ∧ k ≤ l.length := by
  unfold mAfter at h
  by_cases hp : prev = some ch
  · rw [if_pos hp] at h
    dsimp only at h
    by_cases hw : (l.takeWhile isWs).length = 0
    · rw [if_pos hw] at h
      exact Option.noConfusion h
    · rw [if_neg hw] at h
      cases h
      exact ⟨by omega, takeWhile_len_le isWs l⟩
  · rw [if_neg hp] at h
    exact Option.noConfusion h

/-- Every end the pattern scanner records lies strictly beyond the scan
position and within the scanned text. -/
theorem scanEnds_bound (m : Option Char → List Char → Option Nat)
    (hm : ∀ prev l k, m prev l = some k → 1 ≤ k ∧ k ≤ l.length) :
    ∀ (l : List Char) (prev : Option Char) (pos e : Nat),
      e ∈ scanEnds m prev l pos → pos + 1 ≤ e ∧ e ≤ pos + l.length := by
  intro l
  induction l with
  | nil =>
    intro prev pos e he
    simp [scanEnds] at he
  | cons c rest ih =>
    intro prev pos e he
    cases hmv : m prev (c :: rest) with
    | none =>
      rw [scanEnds, hmv] at he
      have := ih (some c) (pos + 1) e he
      simp only [List.length_cons]
      omega
    | some k =>
      rw [scanEnds, hmv] at he
      rcases List.mem_cons.mp he with h1 | h1
      · subst h1
        have := hm prev (c :: rest) k hmv
        omega
      · have := ih (some c) (pos + 1) e h1
        simp only [List.length_cons]
        omega

/-- The last recorded end of a pattern lies between 1 and the text length. -/
theorem lastEnd_bound (m : Option Char → List Char → Option Nat)
    (hm : ∀ prev l k, m prev l = some k → 1 ≤ k ∧ k ≤ l.length)
    (l : List Char) (e : Nat) (h : lastEnd m l = some e) : 1 ≤ e ∧ e ≤ l.length := by
  unfold lastEnd at h
  have hmem : e ∈ scanEnds m none l 0 := List.mem_of_mem_getLast? h
  have := scanEnds_bound m hm l none 0 e hmem
  omega

/-- firstSome preserves any property of the candidate values. -/
theorem firstSome_of_all (P : Nat → Prop) :
    ∀ (xs : List (Option Nat)), (∀ x ∈ xs, ∀ e, x = some e → P e) →
      ∀ e, firstSome xs = some e → P e := by
  intro xs
  induction xs with
  | nil =>
    intro _ e h
    simp [firstSome] at h
  | cons x rest ih =>
    intro hall e h
    cases x with
    | some v =>
      simp only [firstSome] at h
      cases h
      exact hall _ (List.mem_cons_self _ _) _ rfl
    | none =>
      simp only [firstSome] at h
      exact ih (fun y hy => hall y (List.mem_cons_of_mem _ hy)) e h

/-- The split point _find_optimal_split reports lies between 1 and
max_chars. -/
theorem findOptimalSplit_bound (maxChars : Nat) (l : List Char) (e : Nat)
    (h : findOptimalSplit maxChars l = some e) : 1 ≤ e ∧ e ≤ maxChars := by
  unfold findOptimalSplit at h
  have hb : ∀ x ∈ breakMatchers.map (fun m => lastEnd m (l.take maxChars)),
      ∀ e, x = some e → 1 ≤ e ∧ e ≤ maxChars := by
    intro x hx e hxe
    obtain ⟨m, hmmem, rfl⟩ := List.mem_map.mp hx
    have hmb : ∀ prev t k, m prev t = some k → 1 ≤ k ∧ k ≤ t.length := by
      simp only [breakMatchers, List.mem_cons, List.not_mem_nil, or_false] at hmmem
      rcases hmmem with rfl | rfl | rfl | rfl | rfl | rfl | rfl
      · exact m1_bound
      · exact m2_bound
      · exact m3_bound
      · exact m4_bound
      · exact mAfter_bound ';'
      · exact mAfter_bound ':'
      · exact mAfter_bound ','
    have := lastEnd_bound m hmb (l.take maxChars) e hxe
    have hlen : (l.take maxChars).length ≤ maxChars := by
      simp [List.length_take]
    omega
  exact firstSome_of_all (fun e => 1 ≤ e ∧ e ≤ maxChars) _ hb e h

/-- The back-off loop never increases the split point. -/
theorem forceLoop_le (text : List Char) : ∀ sp, forceLoop text sp ≤ sp := by
  intro sp
  induction sp with
  | zero => simp [forceLoop]
  | succ n ih =>
    rw [forceLoop]
    cases (text.drop (n + 1)).head? with
    | none => exact Nat.le_succ_of_le ih
    | some ch =>
      dsimp only
      split
      · exact Nat.le_refl _
      · exact Nat.le_succ_of_le ih

/-- The forced split point lies between 1 and max_chars when max_chars is
positive. -/
theorem forceSplit_bound (maxChars : Nat) (l : List Char) (hmc : 1 ≤ maxChars) :
    1 ≤ forceSplit maxChars l ∧ forceSplit maxChars l ≤ maxChars := by
  unfold forceSplit
  by_cases h0 : forceLoop l maxChars = 0
  · rw [if_pos h0]
    exact ⟨hmc, Nat.le_refl _⟩
  · rw [if_neg h0]
    exact ⟨Nat.one_le_iff_ne_zero.mpr h0, forceLoop_le l maxChars⟩

/-- Every piece produced by the split loop is at most max_chars long. -/
theorem splitGo_piece_le (mc ov : Nat) (hmc : 1 ≤ mc) :
    ∀ (fuel : Nat) (l piece : List Char),
      piece ∈ splitGo mc ov fuel l → piece.length ≤ mc := by
  intro fuel
  induction fuel with
  | zero =>
    intro l piece hp
    cases l with
    | nil => simp [splitGo] at hp
    | cons c cs => simp [splitGo] at hp
  | succ fuel ih =>
    intro l piece hp
    cases l with
    | nil => simp [splitGo] at hp
    | cons c cs =>
      simp only [splitGo] at hp
      by_cases hle : (c :: cs).length ≤ mc
      · rw [if_pos hle] at hp
        rcases List.mem_singleton.mp hp with rfl
        exact hle
      · rw [if_neg hle] at hp
        cases hfo : findOptimalSplit mc (c :: cs) with
        | some e =>
          rw [hfo] at hp
          dsimp only at hp
          rcases List.mem_cons.mp hp with h1 | h1
          · subst h1
            have hb := (findOptimalSplit_bound mc (c :: cs) e hfo).2
            have h3 := strip_len_le ((c :: cs).take e)
            have h4 := List.length_take_le e (c :: cs)
            omega
          · exact ih _ _ h1
        | none =>
          rw [hfo] at hp
          dsimp only at hp
          rcases List.mem_cons.mp hp with h1 | h1
          · subst h1
            have hb := (forceSplit_bound mc (c :: cs) hmc).2
            have h3 := strip_len_le ((c :: cs).take (forceSplit mc (c :: cs)))
            have h4 := List.length_take_le (forceSplit mc (c :: cs)) (c :: cs)
            omega
          · exact ih _ _ h1

/-- A chunk built by the chunk_text loop records as character_count the
length of one of the split pieces. -/
theorem buildChunks_mem :
    ∀ (pieces : List (List Char)) (total i : Nat) (c : TextChunk),
      c ∈ buildChunks total i pieces →
      ∃ piece ∈ pieces, c.character_count = piece.length := by
  intro pieces
  induction pieces with
  | nil =>
    intro total i c hc
    simp [buildChunks] at hc
  | cons p rest ih =>
    intro total i c hc
    rcases List.mem_cons.mp hc with h1 | h1
    · subst h1
      exact ⟨p, List.mem_cons_self _ _, rfl⟩
    · obtain ⟨q, hq, e⟩ := ih total (i + 1) c h1
      exact ⟨q, List.mem_cons_of_mem _ hq, e⟩

/-- C3: when the normalized text exceeds max_chars, every chunk chunk_text
returns has character_count at most max_chars (max_chars positive, as in
every configuration the repository uses). -/
theorem C3_chunk_character_counts (mc ov : Nat) (ct : String) (T : List Char)
    (hmc : 1 ≤ mc) (hlong : mc < (normalize T).length) :
    ∀ c ∈ chunk_text mc ov T ct, c.character_count ≤ mc := by
  intro c hc
  unfold chunk_text at hc
  rw [if_neg (by omega)] at hc
  obtain ⟨piece, hpmem, hcc⟩ := buildChunks_mem _ _ _ c hc
  rw [hcc]
  exact splitGo_piece_le mc ov hmc _ _ piece hpmem

/-- The element getD returns at index 0 of a nonempty list is a member. -/
theorem getD_zero_mem {α : Type} (l : List α) (d : α) (h : 0 < l.length) :
    l.getD 0 d ∈ l := by
  cases l with
  | nil => simp at h
  | cons a rest =>
    rw [List.getD_cons_zero]
    exact List.mem_cons_self _ _

/-- Witness for C3: an eight-character normalized text over a three-character
budget; the first returned chunk respects the budget. -/
theorem C3_chunk_character_counts_witness :
    (1 ≤ 3 ∧ 3 < (normalize ("ab cd ef".toList)).length) ∧
    ((chunk_text 3 0 ("ab cd ef".toList) "story").getD 0 dfltChunk).character_count ≤ 3 :=
  ⟨⟨by decide, by decide⟩,
    C3_chunk_character_counts 3 0 "story" ("ab cd ef".toList) (by decide) (by decide) _
      (getD_zero_mem _ _ (by decide))⟩

/-- A list splits as whitespace, its strip, and whitespace. -/
theorem strip_decomp (l : List Char) :
    ∃ a b, a.all isWs = true ∧ b.all isWs = true ∧ l = a ++ strip l ++ b := by
  refine ⟨l.takeWhile isWs, ((l.dropWhile isWs).reverse.takeWhile isWs).reverse,
    List.all_takeWhile, ?_, ?_⟩
  · rw [List.all_reverse]
    exact List.all_takeWhile
  · have h2 : l.dropWhile isWs
        = strip l ++ ((l.dropWhile isWs).reverse.takeWhile isWs).reverse := by
      calc l.dropWhile isWs
          = (l.dropWhile isWs).reverse.reverse := (List.reverse_reverse _).symm
        _ = ((l.dropWhile isWs).reverse.takeWhile isWs
              ++ (l.dropWhile isWs).reverse.dropWhile isWs).reverse := by
            rw [List.takeWhile_append_dropWhile]
        _ = ((l.dropWhile isWs).reverse.dropWhile isWs).reverse
              ++ ((l.dropWhile isWs).reverse.takeWhile isWs).reverse := by
            rw [List.reverse_append]
        _ = strip l ++ ((l.dropWhile isWs).reverse.takeWhile isWs).reverse := rfl
    conv_lhs => rw [← List.takeWhile_append_dropWhile (p := isWs) (l := l), h2]
    simp [List.append_assoc]

/-- Extending the first separator run on the left. -/
theorem interleaveSep_head_app (y t0 : List Char) (ts cs : List (List Char)) :
    interleaveSep ((y ++ t0) :: ts) cs = y ++ interleaveSep (t0 :: ts) cs := by
  cases cs with
  | nil => simp [interleaveSep]
  | cons c cs2 => simp [interleaveSep, List.append_assoc]

/-- The chunk-object loop preserves the number of pieces. -/
theorem buildChunks_length : ∀ (pieces : List (List Char)) (total i : Nat),
    (buildChunks total i pieces).length = pieces.length := by
  intro pieces
  induction pieces with
  | nil => intro total i; rfl
  | cons p rest ih =>
    intro total i
    simp only [buildChunks, List.length_cons, ih]

/-- The texts of the built chunks are the stripped pieces, in order. -/
theorem buildChunks_map_text : ∀ (pieces : List (List Char)) (total i : Nat),
    (buildChunks total i pieces).map (fun c => c.text) = pieces.map strip := by
  intro pieces
  induction pieces with
  | nil => intro total i; rfl
  | cons p rest ih =>
    intro total i
    simp only [buildChunks, List.map, ih]
    rfl

/-- Decomposition of the split loop: the input (with any trailing
whitespace appended) is the interleaving of whitespace-only separator runs
around the stripped pieces, in order.  This is the trimmed-concatenation
guarantee of the chunker. -/
theorem split_decomp (mc ov : Nat) (hmc : 1 ≤ mc) :
    ∀ (fuel : Nat) (l : List Char), l.length ≤ fuel →
      ∀ (b : List Char), b.all isWs = true →
        ∃ ws : List (List Char), (∀ w ∈ ws, w.all isWs = true) ∧
          ws.length = (splitGo mc ov fuel l).length + 1 ∧
          l ++ b = interleaveSep ws ((splitGo mc ov fuel l).map strip) := by
  intro fuel
  induction fuel with
  | zero =>
    intro l hl b hb
    have hnil : l = [] := List.length_eq_zero.mp (Nat.le_zero.mp hl)
    subst hnil
    refine ⟨[b], ?_, by simp [splitGo], by simp [splitGo, interleaveSep]⟩
    intro w hw
    rw [List.mem_singleton] at hw
    subst hw
    exact hb
  | succ fuel ih =>
    intro l hl b hb
    cases l with
    | nil =>
      refine ⟨[b], ?_, by simp [splitGo], by simp [splitGo, interleaveSep]⟩
      intro w hw
      rw [List.mem_singleton] at hw
      subst hw
      exact hb
    | cons c cs =>
      by_cases hle : (c :: cs).length ≤ mc
      · obtain ⟨a, b2, ha, hb2, hdecomp⟩ := strip_decomp (c :: cs)
        refine ⟨[a, b2 ++ b], ?_, ?_, ?_⟩
        · intro w hw
          rcases List.mem_cons.mp hw with rfl | hw2
          · exact ha
          · rw [List.mem_singleton] at hw2
            subst hw2
            simp [List.all_append, hb2, hb]
        · simp only [splitGo]
          rw [if_pos hle]
          rfl
        · simp only [splitGo]
          rw [if_pos hle]
          simp only [List.map, interleaveSep]
          conv_lhs => rw [hdecomp]
          simp [List.append_assoc]
      · have key : ∀ sp : Nat, 1 ≤ sp →
            ∃ ws : List (List Char), (∀ w ∈ ws, w.all isWs = true) ∧
              ws.length = (strip ((c :: cs).take sp)
                  :: splitGo mc ov fuel (strip ((c :: cs).drop (max (sp - ov) sp)))).length + 1 ∧
              (c :: cs) ++ b = interleaveSep ws ((strip ((c :: cs).take sp)
                  :: splitGo mc ov fuel
                    (strip ((c :: cs).drop (max (sp - ov) sp)))).map strip) := by
          intro sp hsp
          have hmax : max (sp - ov) sp = sp := max_eq_right (Nat.sub_le sp ov)
          rw [hmax]
          obtain ⟨a1, b1, ha1, hb1, hd1⟩ := strip_decomp ((c :: cs).take sp)
          obtain ⟨a2, b2, ha2, hb2, hd2⟩ := strip_decomp (strip ((c :: cs).take sp))
          obtain ⟨a3, b3, ha3, hb3, hd3⟩ := strip_decomp ((c :: cs).drop sp)
          have hrest : (strip ((c :: cs).drop sp)).length ≤ fuel := by
            have h1 := strip_len_le ((c :: cs).drop sp)
            have h2 : ((c :: cs).drop sp).length = (c :: cs).length - sp :=
              List.length_drop _ _
            simp only [List.length_cons] at hl h2
            omega
          obtain ⟨ws1, hall1, hlen1, heq1⟩ := ih (strip ((c :: cs).drop sp)) hrest (b3 ++ b)
            (by simp [List.all_append, hb3, hb])
          cases ws1 with
          | nil => simp at hlen1
          | cons w0 ws2 =>
            refine ⟨(a1 ++ a2) :: ((b2 ++ b1 ++ a3) ++ w0) :: ws2, ?_, ?_, ?_⟩
            · intro w hw
              rcases List.mem_cons.mp hw with rfl | hw2
              · simp [List.all_append, ha1, ha2]
              · rcases List.mem_cons.mp hw2 with rfl | hw3
                · have hw0 : w0.all isWs = true := hall1 w0 (List.mem_cons_self _ _)
                  simp [List.all_append, hb2, hb1, ha3, hw0]
                · exact hall1 w (List.mem_cons_of_mem _ hw3)
            · simp only [List.length_cons] at hlen1 ⊢
              omega
            · simp only [List.map, interleaveSep]
              rw [interleaveSep_head_app]
              rw [← heq1]
              conv_lhs => rw [← List.take_append_drop sp (c :: cs), hd1, hd2, hd3]
              simp [List.append_assoc]
        cases hfo : findOptimalSplit mc (c :: cs) with
        | some e =>
          have he1 := (findOptimalSplit_bound mc (c :: cs) e hfo).1
          have h := key e he1
          simp only [splitGo, hfo]
          rw [if_neg hle]
          exact h
        | none =>
          have he1 := (forceSplit_bound mc (c :: cs) hmc).1
          have h := key (forceSplit mc (c :: cs)) he1
          simp only [splitGo, hfo]
          rw [if_neg hle]
          exact h

/-- C4: with overlap 0 (the no-op next_start arithmetic makes any overlap
behave the same), the chunk texts of chunk_text concatenate back to the
normalized input up to whitespace-only runs trimmed at the chunk
boundaries, expressed as an interleaving with whitespace separators
(max_chars positive, as in every configuration the repository uses). -/
theorem C4_trimmed_concat_reproduces (mc : Nat) (ct : String) (T : List Char)
    (hmc : 1 ≤ mc) :
    ∃ ws : List (List Char), (∀ w ∈ ws, w.all isWs = true) ∧
      ws.length = (chunk_text mc 0 T ct).length + 1 ∧
      normalize T = interleaveSep ws ((chunk_text mc 0 T ct).map (fun c => c.text)) := by
  by_cases hle : (normalize T).length ≤ mc
  · refine ⟨[[], []], ?_, ?_, ?_⟩
    · intro w hw
      rcases List.mem_cons.mp hw with rfl | hw2
      · rfl
      · rw [List.mem_singleton] at hw2
        subst hw2
        rfl
    · simp [chunk_text, hle]
    · simp only [chunk_text]
      rw [if_pos hle]
      simp [interleaveSep, TextChunk.make]
  · obtain ⟨ws, hall, hlen, heq⟩ := split_decomp mc 0 hmc (normalize T).length (normalize T)
      (Nat.le_refl _) [] rfl
    rw [List.append_nil] at heq
    refine ⟨ws, hall, ?_, ?_⟩
    · simp only [chunk_text]
      rw [if_neg hle]
      rw [buildChunks_length]
      exact hlen
    · simp only [chunk_text]
      rw [if_neg hle]
      rw [buildChunks_map_text]
      exact heq

/-- Witness for C4 at a concrete text split into two chunks under a
five-character budget. -/
theorem C4_trimmed_concat_reproduces_witness :
    1 ≤ 5 ∧
    ∃ ws : List (List Char), (∀ w ∈ ws, w.all isWs = true) ∧
      ws.length = (chunk_text 5 0 ("ab cd ef".toList) "story").length + 1 ∧
      normalize ("ab cd ef".toList)
        = interleaveSep ws ((chunk_text 5 0 ("ab cd ef".toList) "story").map (fun c => c.text)) :=
  ⟨by decide, C4_trimmed_concat_reproduces 5 "story" ("ab cd ef".toList) (by decide)⟩

/-- Helper for C6: when every chunk before position j succeeds and chunk j
fails, the per-chunk loop returns the failure naming index i+j+1, with no
audio file and no cost, and the issued requests are exactly those for the
chunks up to and including j. -/
theorem chunkLoop_fail (now : String) (prov : ProviderImpl) (vc : VoiceConfig)
    (out : List Char) (jid : String) :
    ∀ (cs : List (List Char)) (i : Nat) (files : List (Option AudioFile)) (cost : Int)
      (j : Nat), j < cs.length →
      (∀ k, k < j →
        (prov.synthesize (chunkRequest jid vc out (i + k) (cs.getD k []))).success = true) →
      (prov.synthesize (chunkRequest jid vc out (i + j) (cs.getD j []))).success = false →
      chunkLoop now prov vc out jid i cs files cost =
        (.ok { success := false
               error_message := some ("Chunk " ++ toString (i + j + 1) ++ " generation failed: "
                 ++ optStr (prov.synthesize
                     (chunkRequest jid vc out (i + j) (cs.getD j []))).error_message) },
         chunkRequests jid vc out i (cs.take (j + 1))) := by
  intro cs
  induction cs with
  | nil =>
    intro i files cost j hj hok hfail
    exact absurd hj (by simp)
  | cons c rest ih =>
    intro i files cost j hj hok hfail
    cases j with
    | zero =>
      simp only [List.getD_cons_zero, Nat.add_zero] at hfail
      simp only [chunkLoop, List.take_succ_cons, List.take_zero, List.getD_cons_zero,
        Nat.add_zero, chunkRequests]
      rw [if_pos hfail]
    | succ j' =>
      have h0 := hok 0 (Nat.succ_pos j')
      simp only [List.getD_cons_zero, Nat.add_zero] at h0
      have hj' : j' < rest.length := by
        simpa using Nat.lt_of_succ_lt_succ hj
      have hok' : ∀ k, k < j' →
          (prov.synthesize (chunkRequest jid vc out (i + 1 + k) (rest.getD k []))).success
            = true := by
        intro k hk
        have h1 := hok (k + 1) (Nat.succ_lt_succ hk)
        rw [List.getD_cons_succ] at h1
        rw [show i + (k + 1) = i + 1 + k by omega] at h1
        exact h1
      have hfail' :
          (prov.synthesize (chunkRequest jid vc out (i + 1 + j') (rest.getD j' []))).success
            = false := by
        have h1 := hfail
        rw [List.getD_cons_succ] at h1
        rw [show i + (j' + 1) = i + 1 + j' by omega] at h1
        exact h1
      have hrec := ih (i + 1) (files ++ [(prov.synthesize
        (chunkRequest jid vc out i c)).audio_file])
        (cost + (prov.synthesize (chunkRequest jid vc out i c)).cost_cents.getD 0)
        j' hj' hok' hfail'
      simp only [chunkLoop, h0, List.take_succ_cons, chunkRequests]
      rw [if_neg (by simp [h0])]
      rw [hrec]
      have e1 : i + 1 + j' = i + (j' + 1) := by omega
      simp only [e1, List.getD_cons_succ]

/-- C6: in a multi-chunk generate_audio job, if some chunk's synthesis fails
(all earlier ones succeeding), the call returns a failure result whose error
message names that chunk's 1-based index, carries no audio artifact, and no
later chunk's synthesis is attempted (the trace stops at the failing chunk);
the caller's configuration is untouched on this path. -/
theorem C6_chunk_failure_aborts (p : AudioPipeline) (text : List Char) (vc : VoiceConfig)
    (out : List Char) (jid : String) (prov : ProviderImpl) (j : Nat)
    (hreg : p.providers vc.provider = some prov)
    (hlen : prov.get_limits.max_characters < text.length)
    (hj : j < (splitTextForProvider text prov.get_limits.max_characters).length)
    (hok : ∀ k, k < j → (prov.synthesize (chunkRequest jid vc out k
        ((splitTextForProvider text prov.get_limits.max_characters).getD k []))).success = true)
    (hfail : (prov.synthesize (chunkRequest jid vc out j
        ((splitTextForProvider text prov.get_limits.max_characters).getD j []))).success
      = false) :
    generate_audio p text vc out (some jid) =
      (.ok { success := false
             error_message := some ("Chunk " ++ toString (j + 1) ++ " generation failed: "
               ++ optStr (prov.synthesize (chunkRequest jid vc out j
                 ((splitTextForProvider text
                   prov.get_limits.max_characters).getD j []))).error_message) },
       (chunkRequests jid vc out 0
           ((splitTextForProvider text prov.get_limits.max_characters).take (j + 1))).map
         (fun r => (vc.provider, r)),
       vc) := by
  unfold generate_audio
  rw [hreg]
  simp only [Option.getD_some]
  rw [if_pos hlen]
  unfold generateChunkedAudio
  have h := chunkLoop_fail p.now prov vc out jid
    (splitTextForProvider text prov.get_limits.max_characters) 0 [] 0 j hj
    (fun k hk => by simpa only [Nat.zero_add] using hok k hk)
    (by simpa only [Nat.zero_add] using hfail)
  rw [h]
  simp only [Nat.zero_add]

/-- Witness for C6: a ten-character text over a five-character limit splits
into two chunks; the provider fails on the first, the job aborts naming
chunk 1, and only one request was issued. -/
theorem C6_chunk_failure_aborts_witness :
    0 < (splitTextForProvider textChunked chunkFailProv.get_limits.max_characters).length ∧
    (chunkFailProv.synthesize (chunkRequest "J" vcG ("d/o.mp3".toList) 0
        ((splitTextForProvider textChunked
          chunkFailProv.get_limits.max_characters).getD 0 []))).success = false ∧
    generate_audio pipeChunk textChunked vcG ("d/o.mp3".toList) (some "J") =
      (.ok { success := false
             error_message := some ("Chunk " ++ toString (0 + 1) ++ " generation failed: "
               ++ optStr (chunkFailProv.synthesize (chunkRequest "J" vcG ("d/o.mp3".toList) 0
                 ((splitTextForProvider textChunked
                   chunkFailProv.get_limits.max_characters).getD 0 []))).error_message) },
       (chunkRequests "J" vcG ("d/o.mp3".toList) 0
           ((splitTextForProvider textChunked
             chunkFailProv.get_limits.max_characters).take (0 + 1))).map
         (fun r => (TTSProvider.google, r)),
       vcG) :=
  ⟨by decide, by decide,
    C6_chunk_failure_aborts pipeChunk textChunked vcG ("d/o.mp3".toList) "J" chunkFailProv 0
      rfl (by decide) (by decide)
      (fun k hk => absurd hk (Nat.not_lt_zero k)) (by decide)⟩

end UStories
